import Mathlib

/-!
# Verification of the RHC roster parser core

A shallow embedding of the core of `parse_rhc_roster.py` (the Nebraska DHHS
Rural Health Clinic roster parser): the line classifier `is_entry_header`,
the record extractor `parse_entry_lines`, and the page segmenter (the
per-page loop of `parse_pdf`, called `segment_page` in the design document).

Strings are embedded as `List Char`.  Python regular expressions are embedded
by their matching semantics: every pattern used by the program is
deterministic once greediness is taken into account (each quantifier is
followed by a character that cannot start the quantified class), so each
regex is translated to a first-order scanning function, and the declarative
pattern languages are stated separately as existential decompositions and
proved equivalent to the scanners.

Python's `\s` and `str.strip()` are modelled over the six ASCII whitespace
characters (space, tab, newline, carriage return, vertical tab, form feed);
the program's input is ASCII roster text, and no claim depends on non-ASCII
whitespace.
-/

namespace RHC

/-- ASCII whitespace, the model of Python's `\s` class and of the characters
removed by `str.strip()`. -/
def isSpaceC (c : Char) : Bool :=
  c == ' ' || c == '\t' || c == '\n' || c == '\r' || c == '\x0b' || c == '\x0c'

/-- The regex class `[A-Z]`. -/
def isUpperAZ (c : Char) : Bool := 'A' ≤ c && c ≤ 'Z'

/-- The regex class `\d`. -/
def isDigitC (c : Char) : Bool := '0' ≤ c && c ≤ '9'

/-- The apostrophe character. -/
def apos : Char := Char.ofNat 39

/-- The regex class `[A-Z\s']` used for town names. -/
def isTownChar (c : Char) : Bool := isUpperAZ c || isSpaceC c || c == apos

/-- The regex class `[A-Z\s]` used for county names. -/
def isCountyChar (c : Char) : Bool := isUpperAZ c || isSpaceC c

/-- Python's `str.strip()`: remove leading and trailing whitespace. -/
def pystrip (s : List Char) : List Char :=
  ((s.dropWhile isSpaceC).reverse.dropWhile isSpaceC).reverse

/-- The header regex
`^([A-Z\s']+)\s+\(([A-Z\s]+)\)\s+-\s+(\d{5})\s+(RHC-[A-Z])$`
of `parse_entry_lines` (source lines 58-61) applied to a pre-stripped line,
returning the four captured groups on success.

The pattern is deterministic: `[A-Z\s']+\s+` must consume the maximal
`[A-Z\s']` run minus its final whitespace character (the greedy group gives
back exactly one character to `\s+`, and `(` belongs to neither class);
every later quantified class is followed by a character outside the class,
so each `\s+`/`[A-Z\s]+` consumes its maximal run. -/
def headerScan (s : List Char) :
    Option (List Char × List Char × List Char × List Char) :=
  let tw := s.takeWhile isTownChar
  match s.dropWhile isTownChar, tw.getLast? with
  | '(' :: r2, some wc =>
    if isSpaceC wc && !tw.dropLast.isEmpty then
      let county := r2.takeWhile isCountyChar
      if county.isEmpty then none else
      match r2.dropWhile isCountyChar with
      | ')' :: r4 =>
        if (r4.takeWhile isSpaceC).isEmpty then none else
        match r4.dropWhile isSpaceC with
        | '-' :: r6 =>
          if (r6.takeWhile isSpaceC).isEmpty then none else
          match r6.dropWhile isSpaceC with
          | d1 :: d2 :: d3 :: d4 :: d5 :: r8 =>
            if isDigitC d1 && isDigitC d2 && isDigitC d3 && isDigitC d4 &&
               isDigitC d5 then
              if (r8.takeWhile isSpaceC).isEmpty then none else
              match r8.dropWhile isSpaceC with
              | 'R' :: 'H' :: 'C' :: '-' :: u :: [] =>
                if isUpperAZ u then
                  some (tw.dropLast, county, [d1, d2, d3, d4, d5],
                        ['R', 'H', 'C', '-', u])
                else none
              | _ => none
            else none
          | _ => none
        | _ => none
      | _ => none
    else none
  | _, _ => none

/-- `is_entry_header` (source lines 109-112): the same pattern without
captures, `re.match` against the stripped line, converted to `bool`. -/
def is_entry_header (line : List Char) : Bool :=
  (headerScan (pystrip line)).isSome

/-- The name/id regex `^(.+?)\s+(\d{6})$` of `parse_entry_lines`
(source line 70) applied to a pre-stripped line.

Anchored at both ends, the final six characters must be digits; the lazy
first group makes `\s+` consume the maximal whitespace run ending just
before them, and the group is what precedes that run.  The group must be
non-empty and, since `.` does not match a newline, newline-free. -/
def nameScan (s : List Char) : Option (List Char × List Char) :=
  let r := s.reverse
  let digs := r.take 6
  if digs.length = 6 && digs.all isDigitC then
    let ws := (r.drop 6).takeWhile isSpaceC
    let pre := (r.drop 6).dropWhile isSpaceC
    if !ws.isEmpty && !pre.isEmpty && pre.all (fun c => !(c == '\n')) then
      some (pre.reverse, digs.reverse)
    else none
  else none

/-- The phone regex `^\((\d{3})\)\s*(\d{3}-\d{4})` of `parse_entry_lines`
(source line 84), `re.match`, not anchored at the end. -/
def phoneScan (s : List Char) : Option (List Char × List Char) :=
  match s with
  | '(' :: a1 :: a2 :: a3 :: ')' :: r =>
    if isDigitC a1 && isDigitC a2 && isDigitC a3 then
      match r.dropWhile isSpaceC with
      | e1 :: e2 :: e3 :: '-' :: f1 :: f2 :: f3 :: f4 :: _ =>
        if isDigitC e1 && isDigitC e2 && isDigitC e3 && isDigitC f1 &&
           isDigitC f2 && isDigitC f3 && isDigitC f4 then
          some ([a1, a2, a3], [e1, e2, e3, '-', f1, f2, f3, f4])
        else none
      | _ => none
    else none
  | _ => none

/-- An optional literal character (the regex `c?`): consume one `c` when it
is next, otherwise consume nothing. -/
def dropOpt (c : Char) (l : List Char) : List Char :=
  match l with
  | x :: t => if x = c then t else x :: t
  | [] => []

/-- One attempt of the fax regex `FAX:\s*\(?(\d{3})\)?\s*(\d{3}-\d{4})`
(source line 88) at a fixed position, given the text after the literal
`FAX:`.  The optional parentheses are deterministic: when the next
character is `(` (resp. `)`), skipping it leaves a character that cannot
start `\d`, so the greedy option is forced. -/
def faxTry (r : List Char) : Option (List Char × List Char) :=
  match dropOpt '(' (r.dropWhile isSpaceC) with
  | a1 :: a2 :: a3 :: r3 =>
    if isDigitC a1 && isDigitC a2 && isDigitC a3 then
      match (dropOpt ')' r3).dropWhile isSpaceC with
      | e1 :: e2 :: e3 :: '-' :: f1 :: f2 :: f3 :: f4 :: _ =>
        if isDigitC e1 && isDigitC e2 && isDigitC e3 && isDigitC f1 &&
           isDigitC f2 && isDigitC f3 && isDigitC f4 then
          some ([a1, a2, a3], [e1, e2, e3, '-', f1, f2, f3, f4])
        else none
      | _ => none
    else none
  | _ => none

/-- `re.search` of the fax pattern: try every position left to right; the
pattern can only match where the literal `FAX:` stands. -/
def faxSearch : List Char → Option (List Char × List Char)
  | [] => none
  | c :: rest =>
    if (c :: rest).take 4 = ['F', 'A', 'X', ':'] then
      match faxTry ((c :: rest).drop 4) with
      | some r => some r
      | none => faxSearch rest
    else faxSearch rest

/-- The `c/o:` loop of `parse_entry_lines` (source lines 101-104): the first
line whose stripped form starts with `c/o:` yields the rest of that line
after the four-character marker, stripped. -/
def careScan : List (List Char) → Option (List Char)
  | [] => none
  | l :: rest =>
    if (pystrip l).take 4 = ['c', '/', 'o', ':'] then
      some (pystrip ((pystrip l).drop 4))
    else careScan rest

/-- One clinic record, the dict built by `parse_entry_lines`
(source lines 38-51). -/
structure Entry where
  town : List Char
  county : List Char
  zip_code : List Char
  facility_type : List Char
  facility_name : List Char
  provider_id : List Char
  address : List Char
  phone : List Char
  fax : List Char
  licensee : List Char
  administrator : List Char
  care_of : List Char
deriving Repr, DecidableEq

/-- The initial dict: every field the empty string. -/
def emptyEntry : Entry :=
  ⟨[], [], [], [], [], [], [], [], [], [], [], []⟩

/-- Canonical phone rendering `f"({g1}) {g2}"` (source lines 86 and 90). -/
def canonPhone (a n : List Char) : List Char :=
  '(' :: a ++ ')' :: ' ' :: n

/-- `parse_entry_lines` (source lines 36-106).  Each dict entry of the
source is translated to one field; the source assigns the four header
fields from a single `re.match`, rerun here per field with identical
result since `headerScan` is pure. -/
def parse_entry_lines (lines : List (List Char)) : Entry :=
  match lines with
  | [] => emptyEntry
  | l0 :: _ =>
    { town := match headerScan (pystrip l0) with
        | some (t, _, _, _) => pystrip t
        | none => []
      county := match headerScan (pystrip l0) with
        | some (_, c, _, _) => pystrip c
        | none => []
      zip_code := match headerScan (pystrip l0) with
        | some (_, _, z, _) => z
        | none => []
      facility_type := match headerScan (pystrip l0) with
        | some (_, _, _, f) => f
        | none => []
      facility_name := match lines.get? 1 with
        | some l1 =>
          match nameScan (pystrip l1) with
          | some (nm, _) => pystrip nm
          | none => pystrip l1
        | none => []
      provider_id := match lines.get? 1 with
        | some l1 =>
          match nameScan (pystrip l1) with
          | some (_, pid) => pid
          | none => []
        | none => []
      address := match lines.get? 2 with
        | some l2 => pystrip l2
        | none => []
      phone := match lines.get? 3 with
        | some l3 =>
          match phoneScan (pystrip l3) with
          | some (a, n) => canonPhone a n
          | none => []
        | none => []
      fax := match lines.get? 3 with
        | some l3 =>
          match faxSearch (pystrip l3) with
          | some (a, n) => canonPhone a n
          | none => []
        | none => []
      licensee := match lines.get? 4 with
        | some l4 => pystrip l4
        | none => []
      administrator := match lines.get? 5 with
        | some l5 => pystrip l5
        | none => []
      care_of := match careScan (lines.drop 6) with
        | some v => v
        | none => [] }

/-- The summary-line test `line.strip().startswith("Total Facilities:")`
(source line 138). -/
def isTotalLine (l : List Char) : Bool :=
  decide ((pystrip l).take 17 = "Total Facilities:".toList)

/-- Closing a line group (source lines 143-146 and 152-155): a non-empty
group is extracted, and the record is kept only when its `facility_name`
is non-empty. -/
def flushGroup (g : List (List Char)) : List Entry :=
  if g.isEmpty then []
  else
    let e := parse_entry_lines g
    if e.facility_name.isEmpty then [] else [e]

/-- The scanning loop of `parse_pdf` over one page's data lines
(source lines 134-155), carrying the current line group. -/
def segLoop : List (List Char) → List (List Char) → List Entry
  | [], cur => flushGroup cur
  | l :: rest, cur =>
    if isTotalLine l then segLoop rest cur
    else if is_entry_header l then flushGroup cur ++ segLoop rest [l]
    else if cur.isEmpty then segLoop rest cur
    else segLoop rest (cur ++ [l])

/-- `segment_page`: the per-page work of `parse_pdf` (source lines
126-155) — drop the seven boilerplate lines, then scan. -/
def segment_page (lines : List (List Char)) : List Entry :=
  segLoop (lines.drop 7) []

/-! ## Declarative pattern languages and reference decompositions -/

/-- The header grammar exactly as the claim words it (C1): a TOWN of one or
more uppercase letters, spaces or apostrophes; any amount (possibly none)
of whitespace before the opening parenthesis; a parenthesized COUNTY of one
or more uppercase letters and spaces; the literal space-hyphen-space;
exactly five digits of ZIP; whitespace (any amount, per §4.1's `<sep>`);
and `RHC-` followed by exactly one uppercase letter. -/
def ClaimHeaderGrammar (s : List Char) : Prop :=
  ∃ (town w1 county w3 : List Char) (d1 d2 d3 d4 d5 u : Char),
    s = town ++ (w1 ++ ('(' :: (county ++ (')' :: ' ' :: '-' :: ' ' ::
        d1 :: d2 :: d3 :: d4 :: d5 :: (w3 ++ ['R', 'H', 'C', '-', u]))))) ∧
    town ≠ [] ∧ (∀ c ∈ town, isUpperAZ c = true ∨ c = ' ' ∨ c = apos) ∧
    (∀ c ∈ w1, isSpaceC c = true) ∧
    county ≠ [] ∧ (∀ c ∈ county, isUpperAZ c = true ∨ c = ' ') ∧
    (isDigitC d1 && isDigitC d2 && isDigitC d3 && isDigitC d4 &&
      isDigitC d5) = true ∧
    (∀ c ∈ w3, isSpaceC c = true) ∧ isUpperAZ u = true

/-- The header language the code accepts (the amended grammar of C1): the
character classes allow every whitespace character, the separator before
the parenthesis is one or more whitespace characters, and the hyphen is
surrounded by one or more whitespace characters on each side, as are the
ZIP and the type. -/
def TrueHeaderGrammar (s : List Char) : Prop :=
  ∃ (town w1 county w2 w3 w4 : List Char) (d1 d2 d3 d4 d5 u : Char),
    s = town ++ (w1 ++ ('(' :: (county ++ (')' :: (w2 ++ ('-' :: (w3 ++
        (d1 :: d2 :: d3 :: d4 :: d5 ::
          (w4 ++ ['R', 'H', 'C', '-', u]))))))))) ∧
    town ≠ [] ∧ (∀ c ∈ town, isTownChar c = true) ∧
    w1 ≠ [] ∧ (∀ c ∈ w1, isSpaceC c = true) ∧
    county ≠ [] ∧ (∀ c ∈ county, isCountyChar c = true) ∧
    w2 ≠ [] ∧ (∀ c ∈ w2, isSpaceC c = true) ∧
    w3 ≠ [] ∧ (∀ c ∈ w3, isSpaceC c = true) ∧
    (isDigitC d1 && isDigitC d2 && isDigitC d3 && isDigitC d4 &&
      isDigitC d5) = true ∧
    w4 ≠ [] ∧ (∀ c ∈ w4, isSpaceC c = true) ∧ isUpperAZ u = true

/-- The line groups the page segmenter closes, in scan order, with no
validity filtering — the reference decomposition for C5, following the
spec's description of the scanning step. -/
def segGroups : List (List Char) → List (List Char) → List (List (List Char))
  | [], cur => if cur.isEmpty then [] else [cur]
  | l :: rest, cur =>
    if isTotalLine l then segGroups rest cur
    else if is_entry_header l then
      (if cur.isEmpty then [] else [cur]) ++ segGroups rest [l]
    else if cur.isEmpty then segGroups rest cur
    else segGroups rest (cur ++ [l])

/-- The local-number shape `\d{3}-\d{4}`. -/
def NShape (n : List Char) : Prop :=
  ∃ e1 e2 e3 f1 f2 f3 f4, n = [e1, e2, e3, '-', f1, f2, f3, f4] ∧
    (isDigitC e1 && isDigitC e2 && isDigitC e3 && isDigitC f1 && isDigitC f2 &&
      isDigitC f3 && isDigitC f4) = true

/-- The phone pattern `^\((\d{3})\)\s*(\d{3}-\d{4})` as a declarative
decomposition of the (trimmed) line: a parenthesized three-digit area code
at the start, optional whitespace, then the seven-digit local number, then
anything. -/
def PhoneDecomp (s a n : List Char) : Prop :=
  ∃ ws rest, s = '(' :: (a ++ (')' :: (ws ++ (n ++ rest)))) ∧
    a.length = 3 ∧ (∀ c ∈ a, isDigitC c = true) ∧
    (∀ c ∈ ws, isSpaceC c = true) ∧ NShape n

/-- The fax pattern `FAX:\s*\(?(\d{3})\)?\s*(\d{3}-\d{4})` matching at some
position of the line (the `re.search` language), with its two captured
groups. -/
def FaxDecomp (s a n : List Char) : Prop :=
  ∃ pre w1 op cp w2 rest,
    s = pre ++ ('F' :: 'A' :: 'X' :: ':' ::
      (w1 ++ (op ++ (a ++ (cp ++ (w2 ++ (n ++ rest))))))) ∧
    (∀ c ∈ w1, isSpaceC c = true) ∧ (op = [] ∨ op = ['(']) ∧
    a.length = 3 ∧ (∀ c ∈ a, isDigitC c = true) ∧ (cp = [] ∨ cp = [')']) ∧
    (∀ c ∈ w2, isSpaceC c = true) ∧ NShape n

/-- The fax pattern occurs somewhere in the line. -/
def FaxOccurs (s : List Char) : Prop := ∃ a n, FaxDecomp s a n

/-- The reconstruction `"{town} ({county}) - {zip_code} {facility_type}"`
of C6, fields joined with single spaces. -/
def reconstructHeader (e : Entry) : List Char :=
  e.town ++ (' ' :: '(' :: (e.county ++ (')' :: ' ' :: '-' :: ' ' ::
    (e.zip_code ++ (' ' :: e.facility_type)))))

/-! ## A small kit of `takeWhile`/`dropWhile`/`pystrip` lemmas -/

theorem dropWhile_eq_cons_imp {α : Type} {p : α → Bool} :
    ∀ {l : List α} {c : α} {cs : List α}, l.dropWhile p = c :: cs → p c = false := by
  intro l
  induction l with
  | nil => intro c cs h; simp [List.dropWhile] at h
  | cons a t ih =>
    intro c cs h
    by_cases hp : p a = true
    · rw [List.dropWhile_cons_of_pos hp] at h
      exact ih h
    · rw [List.dropWhile_cons_of_neg hp] at h
      injection h with h1 _
      subst h1
      exact Bool.eq_false_iff.mpr hp

theorem dropWhile_eq_nil_imp {α : Type} {p : α → Bool} :
    ∀ {l : List α}, l.dropWhile p = [] → ∀ a ∈ l, p a = true := by
  intro l
  induction l with
  | nil => intro _ a ha; cases ha
  | cons b t ih =>
    intro h a ha
    by_cases hp : p b = true
    · rw [List.dropWhile_cons_of_pos hp] at h
      rcases List.mem_cons.mp ha with rfl | hm
      · exact hp
      · exact ih h a hm
    · rw [List.dropWhile_cons_of_neg hp] at h
      cases h

theorem dropWhile_eq_nil_of_all {α : Type} {p : α → Bool} :
    ∀ {l : List α}, (∀ a ∈ l, p a = true) → l.dropWhile p = [] := by
  intro l
  induction l with
  | nil => intro _; rfl
  | cons b t ih =>
    intro h
    rw [List.dropWhile_cons_of_pos (h b (List.mem_cons_self b t))]
    exact ih fun a ha => h a (List.mem_cons_of_mem b ha)

theorem takeWhile_append_all {α : Type} {p : α → Bool} :
    ∀ {xs : List α}, (∀ a ∈ xs, p a = true) →
      ∀ ys, (xs ++ ys).takeWhile p = xs ++ ys.takeWhile p := by
  intro xs
  induction xs with
  | nil => intro _ ys; simp
  | cons b t ih =>
    intro h ys
    have hb : p b := h b (List.mem_cons_self b t)
    simp only [List.cons_append, List.takeWhile_cons_of_pos hb]
    rw [ih (fun a ha => h a (List.mem_cons_of_mem b ha)) ys]

theorem dropWhile_append_all {α : Type} {p : α → Bool} :
    ∀ {xs : List α}, (∀ a ∈ xs, p a = true) →
      ∀ ys, (xs ++ ys).dropWhile p = ys.dropWhile p := by
  intro xs
  induction xs with
  | nil => intro _ ys; simp
  | cons b t ih =>
    intro h ys
    have hb : p b := h b (List.mem_cons_self b t)
    simp only [List.cons_append, List.dropWhile_cons_of_pos hb]
    exact ih (fun a ha => h a (List.mem_cons_of_mem b ha)) ys

theorem takeWhile_append_stop {α : Type} {p : α → Bool} {xs : List α} {y : α}
    (ys : List α) (h : ∀ a ∈ xs, p a = true) (hy : p y = false) :
    (xs ++ y :: ys).takeWhile p = xs := by
  rw [takeWhile_append_all h]
  rw [List.takeWhile_cons_of_neg (by simp [hy])]
  simp

theorem dropWhile_append_stop {α : Type} {p : α → Bool} {xs : List α} {y : α}
    (ys : List α) (h : ∀ a ∈ xs, p a = true) (hy : p y = false) :
    (xs ++ y :: ys).dropWhile p = y :: ys := by
  rw [dropWhile_append_all h]
  exact List.dropWhile_cons_of_neg (by simp [hy])

theorem dropWhile_eq_self_of_head {α : Type} {p : α → Bool} {l : List α}
    (h : ∀ c, l.head? = some c → p c = false) : l.dropWhile p = l := by
  cases l with
  | nil => rfl
  | cons a t => exact List.dropWhile_cons_of_neg (by simp [h a rfl])

theorem pystrip_cons_space {x : Char} {t : List Char} (hx : isSpaceC x = true) :
    pystrip (x :: t) = pystrip t := by
  unfold pystrip
  rw [List.dropWhile_cons_of_pos hx]

theorem pystrip_no_lead {x : Char} {t : List Char} (hx : isSpaceC x = false) :
    pystrip (x :: t) = ((x :: t).reverse.dropWhile isSpaceC).reverse := by
  unfold pystrip
  rw [List.dropWhile_cons_of_neg (by simp [hx])]

theorem pystrip_head_not_space {l : List Char} {c : Char} {cs : List Char}
    (h : pystrip l = c :: cs) : isSpaceC c = false := by
  have hA : l.dropWhile isSpaceC =
      pystrip l ++ ((l.dropWhile isSpaceC).reverse.takeWhile isSpaceC).reverse := by
    unfold pystrip
    conv_lhs => rw [← List.reverse_reverse (l.dropWhile isSpaceC),
      ← List.takeWhile_append_dropWhile (p := isSpaceC)
        (l := (l.dropWhile isSpaceC).reverse)]
    rw [List.reverse_append]
  rw [h] at hA
  exact dropWhile_eq_cons_imp hA

theorem pystrip_getLast_not_space {l : List Char} {c : Char}
    (h : (pystrip l).getLast? = some c) : isSpaceC c = false := by
  unfold pystrip at h
  rw [List.getLast?_reverse] at h
  cases hB : (l.dropWhile isSpaceC).reverse.dropWhile isSpaceC with
  | nil => rw [hB] at h; cases h
  | cons b bs =>
    rw [hB] at h
    injection h with h1
    subst h1
    exact dropWhile_eq_cons_imp hB

theorem pystrip_ne_nil {x : Char} {t : List Char} (hx : isSpaceC x = false) :
    pystrip (x :: t) ≠ [] := by
  intro h
  rw [pystrip_no_lead hx] at h
  have h2 : (x :: t).reverse.dropWhile isSpaceC = [] := by
    simpa using congrArg List.reverse h
  have h3 := dropWhile_eq_nil_imp h2 x (by simp)
  rw [hx] at h3
  cases h3

theorem pystrip_eq_self {l : List Char}
    (h1 : ∀ c, l.head? = some c → isSpaceC c = false)
    (h2 : ∀ c, l.getLast? = some c → isSpaceC c = false) :
    pystrip l = l := by
  unfold pystrip
  rw [dropWhile_eq_self_of_head h1]
  rw [dropWhile_eq_self_of_head
    (fun c hc => h2 c (by rw [List.head?_reverse] at hc; exact hc))]
  exact List.reverse_reverse l

theorem mem_of_mem_pystrip {l : List Char} {a : Char} (h : a ∈ pystrip l) :
    a ∈ l := by
  unfold pystrip at h
  rw [List.mem_reverse] at h
  have h2 : a ∈ (l.dropWhile isSpaceC).reverse :=
    (List.dropWhile_sublist _).subset h
  rw [List.mem_reverse] at h2
  exact (List.dropWhile_sublist _).subset h2

theorem pystrip_append_spaces {ws : List Char}
    (hws : ∀ a ∈ ws, isSpaceC a = true) :
    ∀ xs, pystrip (xs ++ ws) = pystrip xs := by
  intro xs
  induction xs with
  | nil =>
    simp only [List.nil_append]
    unfold pystrip
    rw [dropWhile_eq_nil_of_all hws]
    rfl
  | cons x xs' ih =>
    by_cases hx : isSpaceC x = true
    · rw [List.cons_append, pystrip_cons_space hx, pystrip_cons_space hx]
      exact ih
    · have hx' : isSpaceC x = false := Bool.eq_false_iff.mpr hx
      rw [List.cons_append, pystrip_no_lead hx', pystrip_no_lead hx']
      congr 1
      rw [List.reverse_cons, List.reverse_cons, List.reverse_append,
        List.append_assoc]
      exact dropWhile_append_all (fun a ha => hws a (List.mem_reverse.mp ha)) _

/-! ## Character-class lemmas -/

theorem isSpaceC_eq_false_of_upper {c : Char} (h : isUpperAZ c = true) :
    isSpaceC c = false := by
  have h1 : 'A' ≤ c := by
    unfold isUpperAZ at h
    rw [Bool.and_eq_true] at h
    exact of_decide_eq_true h.1
  cases hsp : isSpaceC c with
  | false => rfl
  | true =>
    exfalso
    unfold isSpaceC at hsp
    simp only [Bool.or_eq_true, beq_iff_eq] at hsp
    rcases hsp with ((((rfl | rfl) | rfl) | rfl) | rfl) | rfl <;>
      exact absurd h1 (by decide)

theorem isSpaceC_eq_false_of_digit {c : Char} (h : isDigitC c = true) :
    isSpaceC c = false := by
  have h1 : '0' ≤ c := by
    unfold isDigitC at h
    rw [Bool.and_eq_true] at h
    exact of_decide_eq_true h.1
  cases hsp : isSpaceC c with
  | false => rfl
  | true =>
    exfalso
    unfold isSpaceC at hsp
    simp only [Bool.or_eq_true, beq_iff_eq] at hsp
    rcases hsp with ((((rfl | rfl) | rfl) | rfl) | rfl) | rfl <;>
      exact absurd h1 (by decide)

theorem isTownChar_of_space {c : Char} (h : isSpaceC c = true) :
    isTownChar c = true := by
  unfold isTownChar
  rw [h]
  simp

theorem isCountyChar_of_space {c : Char} (h : isSpaceC c = true) :
    isCountyChar c = true := by
  unfold isCountyChar
  rw [h]
  simp

theorem eq_dropLast_append_of_getLast? {α : Type} :
    ∀ {l : List α} {a : α}, l.getLast? = some a → l = l.dropLast ++ [a] := by
  intro l
  induction l with
  | nil => intro a h; cases h
  | cons b t ih =>
    intro a h
    cases t with
    | nil =>
      simp only [List.getLast?_singleton] at h
      injection h with h1
      subst h1
      rfl
    | cons c' t' =>
      rw [List.getLast?_cons_cons] at h
      have h2 := ih h
      calc b :: c' :: t' = b :: ((c' :: t').dropLast ++ [a]) := by rw [← h2]
        _ = (b :: c' :: t').dropLast ++ [a] := by simp [List.dropLast]

/-! ## Declarative header grammars -/

/-- Soundness of the header scanner: a successful scan decomposes its input
along the header pattern, with the captured groups in place. -/
theorem headerScan_sound {s t c z f : List Char}
    (h : headerScan s = some (t, c, z, f)) :
    ∃ (wc : Char) (w2 w3 w4 : List Char) (d1 d2 d3 d4 d5 u : Char),
      s = t ++ (wc :: '(' :: (c ++ (')' :: (w2 ++ ('-' :: (w3 ++
          (d1 :: d2 :: d3 :: d4 :: d5 ::
            (w4 ++ ['R', 'H', 'C', '-', u])))))))) ∧
      t ≠ [] ∧ (∀ a ∈ t, isTownChar a = true) ∧ isSpaceC wc = true ∧
      c ≠ [] ∧ (∀ a ∈ c, isCountyChar a = true) ∧
      w2 ≠ [] ∧ (∀ a ∈ w2, isSpaceC a = true) ∧
      w3 ≠ [] ∧ (∀ a ∈ w3, isSpaceC a = true) ∧
      z = [d1, d2, d3, d4, d5] ∧
      (isDigitC d1 && isDigitC d2 && isDigitC d3 && isDigitC d4 &&
        isDigitC d5) = true ∧
      w4 ≠ [] ∧ (∀ a ∈ w4, isSpaceC a = true) ∧
      f = ['R', 'H', 'C', '-', u] ∧ isUpperAZ u = true := by
  simp only [headerScan] at h
  split at h
  case _ r2 wc heq1 heq2 =>
    split at h
    case isTrue hcond1 =>
      split at h
      case isTrue => exact Option.noConfusion h
      case isFalse hcne =>
        split at h
        case _ r4 heq3 =>
          split at h
          case isTrue => exact Option.noConfusion h
          case isFalse hw2ne =>
            split at h
            case _ r6 heq4 =>
              split at h
              case isTrue => exact Option.noConfusion h
              case isFalse hw3ne =>
                split at h
                case _ d1 d2 d3 d4 d5 r8 heq5 =>
                  split at h
                  case isTrue hdig =>
                    split at h
                    case isTrue => exact Option.noConfusion h
                    case isFalse hw4ne =>
                      split at h
                      case _ u heq6 =>
                        split at h
                        case isTrue hu =>
                          simp only [Option.some.injEq, Prod.mk.injEq] at h
                          obtain ⟨ht, hc, hz, hf⟩ := h
                          rw [Bool.and_eq_true] at hcond1
                          obtain ⟨hwc, htne⟩ := hcond1
                          have htw : s.takeWhile isTownChar = t ++ [wc] := by
                            rw [← ht]
                            exact eq_dropLast_append_of_getLast? heq2
                          have hs : s = (t ++ [wc]) ++ ('(' :: r2) := by
                            rw [← htw, ← heq1]
                            exact (List.takeWhile_append_dropWhile isTownChar s).symm
                          have er2 : r2 = c ++ (')' :: r4) := by
                            rw [← hc, ← heq3]
                            exact (List.takeWhile_append_dropWhile isCountyChar r2).symm
                          have er4 : r4 = r4.takeWhile isSpaceC ++ ('-' :: r6) := by
                            rw [← heq4]
                            exact (List.takeWhile_append_dropWhile isSpaceC r4).symm
                          have er6 : r6 = r6.takeWhile isSpaceC ++
                              (d1 :: d2 :: d3 :: d4 :: d5 :: r8) := by
                            rw [← heq5]
                            exact (List.takeWhile_append_dropWhile isSpaceC r6).symm
                          have er8 : r8 = r8.takeWhile isSpaceC ++
                              ['R', 'H', 'C', '-', u] := by
                            rw [← heq6]
                            exact (List.takeWhile_append_dropWhile isSpaceC r8).symm
                          set w2l := List.takeWhile isSpaceC r4 with hw2def
                          set w3l := List.takeWhile isSpaceC r6 with hw3def
                          set w4l := List.takeWhile isSpaceC r8 with hw4def
                          refine ⟨wc, w2l, w3l, w4l, d1, d2, d3, d4, d5, u,
                            ?_, ?_, ?_, hwc, ?_, ?_, ?_, ?_, ?_, ?_, hz.symm, hdig,
                            ?_, ?_, hf.symm, hu⟩
                          · rw [hs, er2, er4, er6, er8]
                            simp [List.append_assoc]
                          · intro h0
                            rw [h0] at ht
                            rw [ht] at htne
                            simp at htne
                          · intro a ha
                            have ha2 : a ∈ List.takeWhile isTownChar s := by
                              rw [htw]
                              exact List.mem_append_left [wc] ha
                            exact List.mem_takeWhile_imp ha2
                          · intro h0
                            rw [h0] at hc
                            rw [hc] at hcne
                            simp at hcne
                          · intro a ha
                            have ha2 : a ∈ List.takeWhile isCountyChar r2 := by
                              rw [hc]
                              exact ha
                            exact List.mem_takeWhile_imp ha2
                          · intro h0
                            rw [h0] at hw2ne
                            simp at hw2ne
                          · intro a ha
                            rw [hw2def] at ha
                            exact List.mem_takeWhile_imp ha
                          · intro h0
                            rw [h0] at hw3ne
                            simp at hw3ne
                          · intro a ha
                            rw [hw3def] at ha
                            exact List.mem_takeWhile_imp ha
                          · intro h0
                            rw [h0] at hw4ne
                            simp at hw4ne
                          · intro a ha
                            rw [hw4def] at ha
                            exact List.mem_takeWhile_imp ha
                        case isFalse => exact Option.noConfusion h
                      case _ => exact Option.noConfusion h
                  case isFalse => exact Option.noConfusion h
                case _ => exact Option.noConfusion h
            case _ => exact Option.noConfusion h
        case _ => exact Option.noConfusion h
    case isFalse => exact Option.noConfusion h
  case _ => exact Option.noConfusion h

theorem isEmpty_eq_false_of_ne {α : Type} {l : List α} (h : l ≠ []) :
    l.isEmpty = false := by
  cases l with
  | nil => exact absurd rfl h
  | cons a t => rfl

/-- Completeness of the header scanner: every string of the header language
is accepted. -/
theorem headerScan_complete {s : List Char} (h : TrueHeaderGrammar s) :
    (headerScan s).isSome = true := by
  obtain ⟨town, w1, county, w2, w3, w4, d1, d2, d3, d4, d5, u, hs, htne, htc,
    hw1ne, hw1s, hcne, hcc, hw2ne, hw2s, hw3ne, hw3s, hdig, hw4ne, hw4s, hu⟩ := h
  have hall1 : ∀ a ∈ town ++ w1, isTownChar a = true := by
    intro a ha
    rcases List.mem_append.mp ha with h1 | h1
    · exact htc a h1
    · exact isTownChar_of_space (hw1s a h1)
  have hs' : s = (town ++ w1) ++ ('(' :: (county ++ (')' :: (w2 ++ ('-' :: (w3 ++
      (d1 :: d2 :: d3 :: d4 :: d5 :: (w4 ++ ['R', 'H', 'C', '-', u])))))))) := by
    rw [hs]
    simp [List.append_assoc]
  have htake : s.takeWhile isTownChar = town ++ w1 := by
    rw [hs']
    exact takeWhile_append_stop _ hall1 (by decide)
  have hdrop : s.dropWhile isTownChar = '(' :: (county ++ (')' :: (w2 ++ ('-' ::
      (w3 ++ (d1 :: d2 :: d3 :: d4 :: d5 ::
        (w4 ++ ['R', 'H', 'C', '-', u]))))))) := by
    rw [hs']
    exact dropWhile_append_stop _ hall1 (by decide)
  have hlast : (town ++ w1).getLast? = some (w1.getLast hw1ne) := by
    rw [List.getLast?_append_of_ne_nil _ hw1ne]
    exact List.getLast?_eq_getLast_of_ne_nil hw1ne
  have hwcs : isSpaceC (w1.getLast hw1ne) = true :=
    hw1s _ (List.getLast_mem hw1ne)
  have hdlne : (town ++ w1).dropLast ≠ [] := by
    have h1 : 0 < town.length := List.length_pos.mpr htne
    have h2 : 0 < w1.length := List.length_pos.mpr hw1ne
    have h3 : (town ++ w1).dropLast.length = town.length + w1.length - 1 := by
      rw [List.length_dropLast, List.length_append]
    intro h0
    rw [h0] at h3
    simp at h3
    omega
  have hcond1 : (isSpaceC (w1.getLast hw1ne) &&
      !(town ++ w1).dropLast.isEmpty) = true := by
    rw [hwcs, isEmpty_eq_false_of_ne hdlne]
    rfl
  have htkc : (county ++ (')' :: (w2 ++ ('-' :: (w3 ++ (d1 :: d2 :: d3 :: d4 ::
      d5 :: (w4 ++ ['R', 'H', 'C', '-', u]))))))).takeWhile isCountyChar =
      county :=
    takeWhile_append_stop _ hcc (by decide)
  have hdrc : (county ++ (')' :: (w2 ++ ('-' :: (w3 ++ (d1 :: d2 :: d3 :: d4 ::
      d5 :: (w4 ++ ['R', 'H', 'C', '-', u]))))))).dropWhile isCountyChar =
      ')' :: (w2 ++ ('-' :: (w3 ++ (d1 :: d2 :: d3 :: d4 :: d5 ::
        (w4 ++ ['R', 'H', 'C', '-', u]))))) :=
    dropWhile_append_stop _ hcc (by decide)
  have htk2 : (w2 ++ ('-' :: (w3 ++ (d1 :: d2 :: d3 :: d4 :: d5 ::
      (w4 ++ ['R', 'H', 'C', '-', u]))))).takeWhile isSpaceC = w2 :=
    takeWhile_append_stop _ hw2s (by decide)
  have hdr2 : (w2 ++ ('-' :: (w3 ++ (d1 :: d2 :: d3 :: d4 :: d5 ::
      (w4 ++ ['R', 'H', 'C', '-', u]))))).dropWhile isSpaceC =
      '-' :: (w3 ++ (d1 :: d2 :: d3 :: d4 :: d5 ::
        (w4 ++ ['R', 'H', 'C', '-', u]))) :=
    dropWhile_append_stop _ hw2s (by decide)
  have hd1 : isDigitC d1 = true := by
    simp only [Bool.and_eq_true] at hdig
    exact hdig.1.1.1.1
  have htk3 : (w3 ++ (d1 :: d2 :: d3 :: d4 :: d5 ::
      (w4 ++ ['R', 'H', 'C', '-', u]))).takeWhile isSpaceC = w3 :=
    takeWhile_append_stop _ hw3s (isSpaceC_eq_false_of_digit hd1)
  have hdr3 : (w3 ++ (d1 :: d2 :: d3 :: d4 :: d5 ::
      (w4 ++ ['R', 'H', 'C', '-', u]))).dropWhile isSpaceC =
      d1 :: d2 :: d3 :: d4 :: d5 :: (w4 ++ ['R', 'H', 'C', '-', u]) :=
    dropWhile_append_stop _ hw3s (isSpaceC_eq_false_of_digit hd1)
  have htk4 : (w4 ++ ['R', 'H', 'C', '-', u]).takeWhile isSpaceC = w4 :=
    takeWhile_append_stop _ hw4s (by decide)
  have hdr4 : (w4 ++ ['R', 'H', 'C', '-', u]).dropWhile isSpaceC =
      ['R', 'H', 'C', '-', u] :=
    dropWhile_append_stop _ hw4s (by decide)
  simp only [headerScan, htake, hdrop, hlast, hcond1, htkc, hdrc, htk2, hdr2,
    htk3, hdr3, htk4, hdr4, hdig, hu,
    isEmpty_eq_false_of_ne hcne, isEmpty_eq_false_of_ne hw2ne,
    isEmpty_eq_false_of_ne hw3ne, isEmpty_eq_false_of_ne hw4ne]
  simp

/-- The header scanner accepts exactly the declarative header language. -/
theorem headerScan_isSome_iff (s : List Char) :
    (headerScan s).isSome = true ↔ TrueHeaderGrammar s := by
  constructor
  · intro h
    cases hh : headerScan s with
    | none => rw [hh] at h; cases h
    | some q =>
      obtain ⟨t, c, z, f⟩ := q
      obtain ⟨wc, w2, w3, w4, d1, d2, d3, d4, d5, u, heq, htne, htc, hwc, hcne,
        hcc, hw2ne, hw2s, hw3ne, hw3s, hz, hdig, hw4ne, hw4s, hf, hu⟩ :=
        headerScan_sound hh
      refine ⟨t, [wc], c, w2, w3, w4, d1, d2, d3, d4, d5, u, heq, htne, htc,
        List.cons_ne_nil wc [], ?_, hcne, hcc, hw2ne, hw2s, hw3ne, hw3s, hdig,
        hw4ne, hw4s, hu⟩
      intro a ha
      rcases List.mem_singleton.mp ha with rfl
      exact hwc
  · exact headerScan_complete

/-! ## Claim C1: the classifier against the spec grammar -/

/-- C1 (counterexample): the line `ADAMS(GAGE) - 68301 RHC-C` — no
whitespace between the town and the opening parenthesis — matches the
grammar as the claim words it, yet `is_entry_header` rejects it (the code's
pattern `[A-Z\s']+\s+\(` demands at least one whitespace character there),
so the claimed equivalence fails at this input. -/
theorem c1_counterexample :
    ClaimHeaderGrammar ("ADAMS(GAGE) - 68301 RHC-C".toList) ∧
    is_entry_header ("ADAMS(GAGE) - 68301 RHC-C".toList) = false := by
  constructor
  · exact ⟨"ADAMS".toList, [], "GAGE".toList, [' '], '6', '8', '3', '0', '1',
      'C', by decide, by decide, by decide, by decide, by decide, by decide,
      by decide, by decide, by decide⟩
  · decide

/-- C1 (amended): `is_entry_header` returns true exactly when the trimmed
line lies in the header language in which every separator is one or more
whitespace characters (in particular the hyphen is surrounded by one or
more whitespace characters on each side, not exactly one space) and the
town/county classes allow any whitespace character; the empty string is
rejected. -/
theorem c1_header_classifier :
    (∀ line, is_entry_header line = true ↔ TrueHeaderGrammar (pystrip line)) ∧
    is_entry_header [] = false := by
  refine ⟨fun line => ?_, by decide⟩
  unfold is_entry_header
  exact headerScan_isSome_iff (pystrip line)

/-! ## Claim C10: short pages -/

/-- C10: a page of seven or fewer lines contributes no records — the
boilerplate strip of `segment_page` leaves nothing to scan, and the empty
scan yields the empty output (no out-of-range failure is possible in the
embedding, which is total). -/
theorem c10_short_page (lines : List (List Char)) (h : lines.length ≤ 7) :
    segment_page lines = [] := by
  unfold segment_page
  rw [List.drop_eq_nil_of_le h]
  rfl

/-- Witness for C10 at a concrete three-line page. -/
theorem c10_short_page_witness :
    segment_page [[], ['A'], ['B']] = [] :=
  c10_short_page [[], ['A'], ['B']] (by decide)

/-! ## Claim C4: totality and empty-field defaults -/

/-- C4: `parse_entry_lines` is total (it is a total function of the
embedding, returning a structurally complete twelve-field record for every
input); the empty sequence yields the all-empty record, and every
positionally mapped field whose line index is at least the sequence length
is the empty string. -/
theorem c4_total_defaults :
    parse_entry_lines [] = emptyEntry ∧
    ∀ lines : List (List Char),
      (lines.length = 0 →
        (parse_entry_lines lines).town = [] ∧
        (parse_entry_lines lines).county = [] ∧
        (parse_entry_lines lines).zip_code = [] ∧
        (parse_entry_lines lines).facility_type = []) ∧
      (lines.length ≤ 1 →
        (parse_entry_lines lines).facility_name = [] ∧
        (parse_entry_lines lines).provider_id = []) ∧
      (lines.length ≤ 2 → (parse_entry_lines lines).address = []) ∧
      (lines.length ≤ 3 →
        (parse_entry_lines lines).phone = [] ∧
        (parse_entry_lines lines).fax = []) ∧
      (lines.length ≤ 4 → (parse_entry_lines lines).licensee = []) ∧
      (lines.length ≤ 5 → (parse_entry_lines lines).administrator = []) ∧
      (lines.length ≤ 6 → (parse_entry_lines lines).care_of = []) := by
  constructor
  · rfl
  · intro lines
    cases lines with
    | nil =>
      exact ⟨fun _ => ⟨rfl, rfl, rfl, rfl⟩, fun _ => ⟨rfl, rfl⟩, fun _ => rfl,
        fun _ => ⟨rfl, rfl⟩, fun _ => rfl, fun _ => rfl, fun _ => rfl⟩
    | cons l0 rest =>
      simp only [List.length_cons] at *
      refine ⟨fun h => by omega, fun h => ?_, fun h => ?_, fun h => ?_,
        fun h => ?_, fun h => ?_, fun h => ?_⟩
      · have h1 : rest[0]? = none := List.getElem?_eq_none (by omega)
        constructor <;> simp [parse_entry_lines, h1]
      · have h1 : rest[1]? = none := List.getElem?_eq_none (by omega)
        simp [parse_entry_lines, h1]
      · have h1 : rest[2]? = none := List.getElem?_eq_none (by omega)
        constructor <;> simp [parse_entry_lines, h1]
      · have h1 : rest[3]? = none := List.getElem?_eq_none (by omega)
        simp [parse_entry_lines, h1]
      · have h1 : rest[4]? = none := List.getElem?_eq_none (by omega)
        simp [parse_entry_lines, h1]
      · have h1 : rest.drop 5 = [] := List.drop_eq_nil_of_le (by omega)
        simp [parse_entry_lines, List.drop_succ_cons, h1, careScan]

/-- Witness for C4, discharging every length hypothesis at the empty
sequence and at a one-line sequence. -/
theorem c4_total_defaults_witness :
    (parse_entry_lines []).town = [] ∧
    (parse_entry_lines [['X']]).facility_name = [] ∧
    (parse_entry_lines [['X']]).provider_id = [] ∧
    (parse_entry_lines [['X']]).address = [] ∧
    (parse_entry_lines [['X']]).phone = [] ∧
    (parse_entry_lines [['X']]).fax = [] ∧
    (parse_entry_lines [['X']]).licensee = [] ∧
    (parse_entry_lines [['X']]).administrator = [] ∧
    (parse_entry_lines [['X']]).care_of = [] := by
  obtain ⟨h0, hall⟩ := c4_total_defaults
  obtain ⟨ha, hb, hc, hd, he, hf, hg⟩ := hall [['X']]
  exact ⟨by rw [h0]; rfl, (hb (by decide)).1, (hb (by decide)).2,
    hc (by decide), (hd (by decide)).1, (hd (by decide)).2, he (by decide),
    hf (by decide), hg (by decide)⟩

/-! ## Claim C5: the validity gate -/

theorem segLoop_eq_filter_groups :
    ∀ (d : List (List Char)) (cur : List (List Char)),
      segLoop d cur = ((segGroups d cur).map parse_entry_lines).filter
        (fun e => !e.facility_name.isEmpty) := by
  intro d
  induction d with
  | nil =>
    intro cur
    by_cases hc : cur.isEmpty
    · simp [segLoop, segGroups, flushGroup, hc]
    · by_cases he : (parse_entry_lines cur).facility_name.isEmpty <;>
        simp [segLoop, segGroups, flushGroup, hc, he]
  | cons l rest ih =>
    intro cur
    by_cases ht : isTotalLine l
    · simp [segLoop, segGroups, ht, ih]
    · by_cases hh : is_entry_header l
      · by_cases hc : cur.isEmpty
        · simp [segLoop, segGroups, ht, hh, hc, flushGroup, ih]
        · by_cases he : (parse_entry_lines cur).facility_name.isEmpty <;>
            simp [segLoop, segGroups, ht, hh, hc, he, flushGroup, ih,
              List.filter_append]
      · by_cases hc : cur.isEmpty <;>
          simp [segLoop, segGroups, ht, hh, hc, ih]

/-- C5: a closed line group contributes a record to `segment_page`'s output
exactly when its extracted `facility_name` is non-empty — the output is
precisely the extraction of every closed group filtered by that one
test, so no other validity gate exists. -/
theorem c5_validity_gate (lines : List (List Char)) :
    segment_page lines =
      ((segGroups (lines.drop 7) []).map parse_entry_lines).filter
        (fun e => !e.facility_name.isEmpty) :=
  segLoop_eq_filter_groups (lines.drop 7) []

/-! ## Claim C7: the Total Facilities line -/

/-- C7 (counterexample): a `Total Facilities:` line inside the first seven
lines of the page is consumed by the fixed boilerplate strip, so removing
it shifts a data line into the stripped window and changes the output —
the output is not invariant under removal of such lines from the full page
sequence. -/
theorem c7_counterexample :
    (segment_page
      ["Total Facilities: 5".toList, ['x'], ['x'], ['x'], ['x'], ['x'], ['x'],
       "ADAMS (GAGE) - 68301 RHC-C".toList,
       "ADAMS PRIMARY CARE 283499".toList]).length = 1 ∧
    segment_page
      (["Total Facilities: 5".toList, ['x'], ['x'], ['x'], ['x'], ['x'], ['x'],
        "ADAMS (GAGE) - 68301 RHC-C".toList,
        "ADAMS PRIMARY CARE 283499".toList].filter
        (fun l => !isTotalLine l)) = [] := by
  constructor
  · decide
  · decide

theorem segLoop_filter_total :
    ∀ (d : List (List Char)) (cur : List (List Char)),
      segLoop (d.filter fun l => !isTotalLine l) cur = segLoop d cur := by
  intro d
  induction d with
  | nil => intro cur; rfl
  | cons l rest ih =>
    intro cur
    by_cases ht : isTotalLine l
    · simp [List.filter_cons, ht, segLoop, ih]
    · have ht' : isTotalLine l = false := Bool.eq_false_iff.mpr ht
      by_cases hh : is_entry_header l
      · simp [List.filter_cons, ht', segLoop, hh, ih]
      · by_cases hc : cur.isEmpty <;>
          simp [List.filter_cons, ht', segLoop, hh, hc, ih]

/-- C7 (amended): within the scanned region — the lines after the fixed
seven-line boilerplate strip — every line whose trimmed form starts with
`Total Facilities:` is skipped: it never joins, closes, or starts a group,
and the output equals that of the scan run with those lines removed.  (A
`Total Facilities:` line inside the first seven lines is instead consumed
by the position-based strip, see the counterexample.) -/
theorem c7_total_skipped (lines : List (List Char)) :
    segment_page lines =
      segLoop ((lines.drop 7).filter fun l => !isTotalLine l) [] :=
  (segLoop_filter_total (lines.drop 7) []).symm

/-! ## Claim C8: care_of extraction -/

theorem careScan_eq_some_of_first :
    ∀ (pre : List (List Char)) (l : List Char) (post : List (List Char)),
      (∀ m ∈ pre, ¬ (pystrip m).take 4 = ['c', '/', 'o', ':']) →
      (pystrip l).take 4 = ['c', '/', 'o', ':'] →
      careScan (pre ++ l :: post) = some (pystrip ((pystrip l).drop 4)) := by
  intro pre
  induction pre with
  | nil =>
    intro l post _ hl
    simp [careScan, hl]
  | cons m pre' ih =>
    intro l post hpre hl
    have hm : ¬ (pystrip m).take 4 = ['c', '/', 'o', ':'] :=
      hpre m (List.mem_cons_self m pre')
    simp only [List.cons_append, careScan, if_neg hm]
    exact ih l post (fun m' hm' => hpre m' (List.mem_cons_of_mem m hm')) hl

theorem careScan_eq_none :
    ∀ d : List (List Char),
      (∀ m ∈ d, ¬ (pystrip m).take 4 = ['c', '/', 'o', ':']) →
      careScan d = none := by
  intro d
  induction d with
  | nil => intro _; rfl
  | cons m d' ih =>
    intro h
    have hm := h m (List.mem_cons_self m d')
    simp only [careScan, if_neg hm]
    exact ih fun m' hm' => h m' (List.mem_cons_of_mem m hm')

/-- C8: scanning from line index 6 onward in order, the first line whose
trimmed form starts with `c/o:` sets `care_of` to the rest of that line
after the four-character marker, trimmed, and the scan stops there; when no
such line exists at indices 6 and beyond — whatever stands at indices below
6 — `care_of` is empty. -/
theorem c8_care_of (lines : List (List Char)) :
    (∀ (pre : List (List Char)) (l : List Char) (post : List (List Char)),
      lines.drop 6 = pre ++ l :: post →
      (∀ m ∈ pre, ¬ (pystrip m).take 4 = ['c', '/', 'o', ':']) →
      (pystrip l).take 4 = ['c', '/', 'o', ':'] →
      (parse_entry_lines lines).care_of = pystrip ((pystrip l).drop 4)) ∧
    ((∀ m ∈ lines.drop 6, ¬ (pystrip m).take 4 = ['c', '/', 'o', ':']) →
      (parse_entry_lines lines).care_of = []) := by
  constructor
  · intro pre l post hd hpre hl
    cases lines with
    | nil =>
      rw [List.drop_nil] at hd
      exact absurd hd.symm (List.append_ne_nil_of_right_ne_nil pre
        (List.cons_ne_nil l post))
    | cons l0 rest =>
      rw [List.drop_succ_cons] at hd
      have hs : careScan (rest.drop 5) = some (pystrip ((pystrip l).drop 4)) := by
        rw [hd]
        exact careScan_eq_some_of_first pre l post hpre hl
      simp [parse_entry_lines, hs]
  · intro hnone
    cases lines with
    | nil => rfl
    | cons l0 rest =>
      rw [List.drop_succ_cons] at hnone
      have hs : careScan (rest.drop 5) = none := careScan_eq_none _ hnone
      simp [parse_entry_lines, hs]

/-- Witness for C8 at a seven-line group whose seventh line carries the
marker. -/
theorem c8_care_of_witness :
    (parse_entry_lines
      [[], [], [], [], [], [], "c/o: JOHN DOE".toList]).care_of =
      "JOHN DOE".toList := by
  have h := (c8_care_of [[], [], [], [], [], [], "c/o: JOHN DOE".toList]).1
    [] ("c/o: JOHN DOE".toList) [] (by decide) (by simp) (by decide)
  rw [h]
  decide

/-! ## Claim C3: the facility name / provider id split -/

/-- Completeness of the name/id scanner on a stripped line: any split into
non-empty newline-free text, whitespace, and a six-digit tail is found, the
returned name being the text before the maximal whitespace run (the lazy
group), which strips to the same string as the split's own name. -/
theorem nameScan_of_split {s name ws id : List Char}
    (hs : s = name ++ (ws ++ id))
    (hn : name ≠ []) (hnl : ∀ c ∈ name, ¬ c = '\n')
    (hw : ws ≠ []) (hws : ∀ c ∈ ws, isSpaceC c = true)
    (hid6 : id.length = 6) (hidd : ∀ c ∈ id, isDigitC c = true)
    (hhead : ∀ c cs, s = c :: cs → isSpaceC c = false) :
    nameScan s = some ((name.reverse.dropWhile isSpaceC).reverse, id) ∧
    pystrip ((name.reverse.dropWhile isSpaceC).reverse) = pystrip name := by
  have hlen6 : (id.reverse : List Char).length = 6 := by simp [hid6]
  have hrev : s.reverse = id.reverse ++ (ws.reverse ++ name.reverse) := by
    rw [hs]
    simp [List.reverse_append, List.append_assoc]
  have htake6 : s.reverse.take 6 = id.reverse := by
    rw [hrev]
    exact List.take_left' hlen6
  have hdrop6 : s.reverse.drop 6 = ws.reverse ++ name.reverse := by
    rw [hrev]
    exact List.drop_left' hlen6
  have hwsrev : ∀ c ∈ ws.reverse, isSpaceC c = true := fun c hc =>
    hws c (List.mem_reverse.mp hc)
  have htakeWS : (ws.reverse ++ name.reverse).takeWhile isSpaceC =
      ws.reverse ++ name.reverse.takeWhile isSpaceC :=
    takeWhile_append_all hwsrev _
  have hdropWS : (ws.reverse ++ name.reverse).dropWhile isSpaceC =
      name.reverse.dropWhile isSpaceC :=
    dropWhile_append_all hwsrev _
  have hprene : name.reverse.dropWhile isSpaceC ≠ [] := by
    intro h0
    have hall := dropWhile_eq_nil_imp h0
    obtain ⟨nh, nt, rfl⟩ := List.exists_cons_of_ne_nil hn
    have hnh : isSpaceC nh = false := hhead nh (nt ++ (ws ++ id)) (by rw [hs]; rfl)
    have : isSpaceC nh = true := hall nh (by simp)
    rw [hnh] at this
    cases this
  have hc1 : (decide ((id.reverse : List Char).length = 6) &&
      id.reverse.all isDigitC) = true := by
    rw [decide_eq_true hlen6, List.all_eq_true.mpr
      (fun x hx => hidd x (List.mem_reverse.mp hx))]
    rfl
  have h1 : (ws.reverse ++ name.reverse.takeWhile isSpaceC).isEmpty = false := by
    apply isEmpty_eq_false_of_ne
    intro h0
    rcases List.append_eq_nil.mp h0 with ⟨h1, _⟩
    exact hw (by simpa using congrArg List.reverse h1)
  have h2 : (name.reverse.dropWhile isSpaceC).isEmpty = false :=
    isEmpty_eq_false_of_ne hprene
  have h3 : (name.reverse.dropWhile isSpaceC).all (fun c => !(c == '\n')) =
      true := by
    apply List.all_eq_true.mpr
    intro c hc
    have hcn : c ∈ name :=
      List.mem_reverse.mp ((List.dropWhile_sublist _).subset hc)
    rw [Bool.not_eq_true']
    exact beq_eq_false_iff_ne.mpr (hnl c hcn)
  constructor
  · simp only [nameScan, hdrop6, htakeWS, hdropWS, htake6,
      List.reverse_reverse]
    rw [hc1, h1, h2, h3]
    simp
  · have hname : name = (name.reverse.dropWhile isSpaceC).reverse ++
        (name.reverse.takeWhile isSpaceC).reverse := by
      conv_lhs => rw [← List.reverse_reverse name,
        ← List.takeWhile_append_dropWhile (p := isSpaceC) (l := name.reverse)]
      rw [List.reverse_append]
    have htsps : ∀ a ∈ (name.reverse.takeWhile isSpaceC).reverse,
        isSpaceC a = true := fun a ha =>
      List.mem_takeWhile_imp (List.mem_reverse.mp ha)
    conv_rhs => rw [hname]
    exact (pystrip_append_spaces htsps _).symm

/-- Soundness of the name/id scanner: a successful scan exhibits the split
the regex `^(.+?)\s+(\d{6})$` describes. -/
theorem nameScan_sound {s nm id : List Char} (h : nameScan s = some (nm, id)) :
    ∃ ws, s = nm ++ (ws ++ id) ∧ nm ≠ [] ∧ (∀ c ∈ nm, ¬ c = '\n') ∧ ws ≠ [] ∧
      (∀ c ∈ ws, isSpaceC c = true) ∧ id.length = 6 ∧
      ∀ c ∈ id, isDigitC c = true := by
  simp only [nameScan] at h
  split at h
  case isTrue hcond1 =>
    split at h
    case isTrue hcond2 =>
      simp only [Option.some.injEq, Prod.mk.injEq] at h
      obtain ⟨hnm, hid⟩ := h
      rw [Bool.and_eq_true] at hcond1
      obtain ⟨hlen, hdigs⟩ := hcond1
      rw [Bool.and_eq_true, Bool.and_eq_true] at hcond2
      obtain ⟨⟨hws0, hpre0⟩, hprenl⟩ := hcond2
      refine ⟨((s.reverse.drop 6).takeWhile isSpaceC).reverse, ?_, ?_, ?_, ?_,
        ?_, ?_, ?_⟩
      · rw [← hnm, ← hid]
        rw [← List.reverse_append, ← List.reverse_append, List.append_assoc,
          List.takeWhile_append_dropWhile, List.take_append_drop,
          List.reverse_reverse]
      · rw [← hnm]
        intro h0
        rw [Bool.not_eq_true'] at hpre0
        rw [show (s.reverse.drop 6).dropWhile isSpaceC = [] from by
          simpa using congrArg List.reverse h0] at hpre0
        cases hpre0
      · intro c hc
        rw [← hnm] at hc
        have := List.all_eq_true.mp hprenl c (List.mem_reverse.mp hc)
        rw [Bool.not_eq_true'] at this
        exact beq_eq_false_iff_ne.mp this
      · intro h0
        rw [Bool.not_eq_true'] at hws0
        rw [show (s.reverse.drop 6).takeWhile isSpaceC = [] from by
          simpa using congrArg List.reverse h0] at hws0
        cases hws0
      · intro c hc
        exact List.mem_takeWhile_imp (List.mem_reverse.mp hc)
      · rw [← hid]
        simpa using of_decide_eq_true hlen
      · intro c hc
        rw [← hid] at hc
        exact List.all_eq_true.mp hdigs c (List.mem_reverse.mp hc)
    case isFalse => exact Option.noConfusion h
  case isFalse => exact Option.noConfusion h

/-- C3: when the trimmed line at index 1 splits as non-empty text, then
whitespace, then a six-digit token at the end, `parse_entry_lines` takes
the text (trimmed) as `facility_name` and the token as `provider_id`;
otherwise the whole trimmed line is the `facility_name` and `provider_id`
stays empty.  Lines contain no newline character (they come from splitting
the page text on newlines). -/
theorem c3_name_id :
    (∀ (lines : List (List Char)) (l1 : List Char), lines.get? 1 = some l1 →
      (∀ c ∈ l1, ¬ c = '\n') →
      (∀ name ws id, pystrip l1 = name ++ (ws ++ id) → name ≠ [] → ws ≠ [] →
        (∀ c ∈ ws, isSpaceC c = true) → id.length = 6 →
        (∀ c ∈ id, isDigitC c = true) →
        (parse_entry_lines lines).facility_name = pystrip name ∧
        (parse_entry_lines lines).provider_id = id) ∧
      ((¬ ∃ name ws id, pystrip l1 = name ++ (ws ++ id) ∧ name ≠ [] ∧ ws ≠ [] ∧
          (∀ c ∈ ws, isSpaceC c = true) ∧ id.length = 6 ∧
          ∀ c ∈ id, isDigitC c = true) →
        (parse_entry_lines lines).facility_name = pystrip l1 ∧
        (parse_entry_lines lines).provider_id = [])) ∧
    (parse_entry_lines [[], "ADAMS PRIMARY CARE 283499".toList]).facility_name =
      "ADAMS PRIMARY CARE".toList ∧
    (parse_entry_lines [[], "ADAMS PRIMARY CARE 283499".toList]).provider_id =
      "283499".toList := by
  refine ⟨?_, by decide, by decide⟩
  intro lines l1 hget hl1nl
  cases lines with
  | nil => cases hget
  | cons l0 rest =>
    rw [List.get?_cons_succ, List.get?_eq_getElem?] at hget
    constructor
    · intro name ws id hdec hnne hwne hwss hid6 hidd
      have hnl : ∀ c ∈ name, ¬ c = '\n' := by
        intro c hc
        apply hl1nl
        apply mem_of_mem_pystrip
        rw [hdec]
        exact List.mem_append_left _ hc
      have hhead : ∀ c cs, pystrip l1 = c :: cs → isSpaceC c = false :=
        fun c cs hc => pystrip_head_not_space hc
      obtain ⟨hscan, hstrip⟩ :=
        nameScan_of_split hdec hnne hnl hwne hwss hid6 hidd hhead
      constructor
      · rw [← hstrip]
        simp [parse_entry_lines, hget, hscan]
      · simp [parse_entry_lines, hget, hscan]
    · intro hnex
      cases hscan : nameScan (pystrip l1) with
      | some p =>
        obtain ⟨nm, id⟩ := p
        obtain ⟨ws, hdec, h1, h2, h3, h4, h5, h6⟩ := nameScan_sound hscan
        exact absurd ⟨nm, ws, id, hdec, h1, h3, h4, h5, h6⟩ hnex
      | none =>
        constructor <;> simp [parse_entry_lines, hget, hscan]

/-- Witness for C3 at a concrete split line. -/
theorem c3_name_id_witness :
    (parse_entry_lines [[], "AB 123456".toList]).facility_name = "AB".toList ∧
    (parse_entry_lines [[], "AB 123456".toList]).provider_id =
      "123456".toList := by
  have h := ((c3_name_id.1 [[], "AB 123456".toList] ("AB 123456".toList) rfl
    (by decide)).1) ("AB".toList) [' '] ("123456".toList) (by decide)
    (by decide) (by decide) (by decide) (by decide) (by decide)
  refine ⟨?_, h.2⟩
  rw [h.1]
  decide

/-! ## Claim C2: phone and fax -/

theorem phoneScan_complete {s a n : List Char} (h : PhoneDecomp s a n) :
    phoneScan s = some (a, n) := by
  obtain ⟨ws, rest, hs, ha3, had, hws, e1, e2, e3, f1, f2, f3, f4, hn, hnd⟩ := h
  obtain ⟨a1, a2, a3, rfl⟩ := List.length_eq_three.mp ha3
  subst hs hn
  have hd1 : isDigitC a1 = true := had a1 (by simp)
  have hd2 : isDigitC a2 = true := had a2 (by simp)
  have hd3 : isDigitC a3 = true := had a3 (by simp)
  have he1 : isDigitC e1 = true := by
    simp only [Bool.and_eq_true] at hnd
    exact hnd.1.1.1.1.1.1
  have hdws : (e1 :: e2 :: e3 :: '-' :: f1 :: f2 :: f3 :: f4 ::
      rest).dropWhile isSpaceC =
      e1 :: e2 :: e3 :: '-' :: f1 :: f2 :: f3 :: f4 :: rest :=
    dropWhile_eq_self_of_head (by
      intro c hc
      simp at hc
      rw [← hc]
      exact isSpaceC_eq_false_of_digit he1)
  show phoneScan ('(' :: a1 :: a2 :: a3 :: ')' ::
      (ws ++ (e1 :: e2 :: e3 :: '-' :: f1 :: f2 :: f3 :: f4 :: rest))) = _
  simp only [phoneScan, dropWhile_append_all hws, hdws, hd1, hd2, hd3, hnd]
  simp

theorem phoneScan_sound {s a n : List Char} (h : phoneScan s = some (a, n)) :
    PhoneDecomp s a n := by
  unfold phoneScan at h
  split at h
  case _ a1 a2 a3 r =>
    split at h
    case isTrue hd =>
      split at h
      case _ e1 e2 e3 f1 f2 f3 f4 tail heq =>
        split at h
        case isTrue hd2 =>
          simp only [Option.some.injEq, Prod.mk.injEq] at h
          obtain ⟨ha, hn⟩ := h
          rw [Bool.and_eq_true, Bool.and_eq_true] at hd
          refine ⟨r.takeWhile isSpaceC, tail, ?_, ?_, ?_, ?_,
            e1, e2, e3, f1, f2, f3, f4, hn.symm, hd2⟩
          · have hr : r = r.takeWhile isSpaceC ++
                (e1 :: e2 :: e3 :: '-' :: f1 :: f2 :: f3 :: f4 :: tail) := by
              rw [← heq]
              exact (List.takeWhile_append_dropWhile isSpaceC r).symm
            rw [← ha, ← hn]
            conv_lhs => rw [hr]
            rfl
          · rw [← ha]
            rfl
          · intro c hc
            rw [← ha] at hc
            simp at hc
            rcases hc with rfl | rfl | rfl
            · exact hd.1.1
            · exact hd.1.2
            · exact hd.2
          · intro c hc
            exact List.mem_takeWhile_imp hc
        case isFalse => exact Option.noConfusion h
      case _ => exact Option.noConfusion h
    case isFalse => exact Option.noConfusion h
  case _ => exact Option.noConfusion h

theorem dropOpt_eq_self_of_head {c : Char} {l : List Char}
    (h : ∀ x, l.head? = some x → ¬ x = c) : dropOpt c l = l := by
  cases l with
  | nil => rfl
  | cons x t =>
    show (if x = c then t else x :: t) = x :: t
    exact if_neg (h x rfl)

theorem head?_append_cons {α : Type} (xs : List α) (y : α) (ys : List α) :
    ∃ z, (xs ++ y :: ys).head? = some z ∧ (z ∈ xs ∨ z = y) := by
  cases xs with
  | nil => exact ⟨y, rfl, Or.inr rfl⟩
  | cons x t => exact ⟨x, rfl, Or.inl (List.mem_cons_self x t)⟩

theorem faxTry_complete {tail w1 op a cp w2 n rest : List Char}
    (ht : tail = w1 ++ (op ++ (a ++ (cp ++ (w2 ++ (n ++ rest))))))
    (hw1 : ∀ c ∈ w1, isSpaceC c = true) (hop : op = [] ∨ op = ['('])
    (ha3 : a.length = 3) (had : ∀ c ∈ a, isDigitC c = true)
    (hcp : cp = [] ∨ cp = [')']) (hw2 : ∀ c ∈ w2, isSpaceC c = true)
    (hn : NShape n) :
    faxTry tail = some (a, n) := by
  obtain ⟨e1, e2, e3, f1, f2, f3, f4, hnn, hnd⟩ := hn
  obtain ⟨a1, a2, a3, rfl⟩ := List.length_eq_three.mp ha3
  subst hnn ht
  have hd1 : isDigitC a1 = true := had a1 (by simp)
  have hd2 : isDigitC a2 = true := had a2 (by simp)
  have hd3 : isDigitC a3 = true := had a3 (by simp)
  have he1 : isDigitC e1 = true := by
    simp only [Bool.and_eq_true] at hnd
    exact hnd.1.1.1.1.1.1
  simp only [List.cons_append, List.nil_append]
  have h1 : (w1 ++ (op ++ a1 :: a2 :: a3 :: (cp ++ (w2 ++ e1 :: e2 :: e3 ::
      '-' :: f1 :: f2 :: f3 :: f4 :: rest)))).dropWhile isSpaceC =
      op ++ a1 :: a2 :: a3 :: (cp ++ (w2 ++ e1 :: e2 :: e3 ::
        '-' :: f1 :: f2 :: f3 :: f4 :: rest)) := by
    rw [dropWhile_append_all hw1]
    apply dropWhile_eq_self_of_head
    intro x hx
    rcases hop with rfl | rfl
    · simp only [List.nil_append, List.head?_cons, Option.some.injEq] at hx
      rw [← hx]
      exact isSpaceC_eq_false_of_digit hd1
    · simp only [List.cons_append, List.head?_cons, Option.some.injEq] at hx
      rw [← hx]
      decide
  have h2 : dropOpt '(' (op ++ a1 :: a2 :: a3 :: (cp ++ (w2 ++ e1 :: e2 ::
      e3 :: '-' :: f1 :: f2 :: f3 :: f4 :: rest))) =
      a1 :: a2 :: a3 :: (cp ++ (w2 ++ e1 :: e2 :: e3 ::
        '-' :: f1 :: f2 :: f3 :: f4 :: rest)) := by
    rcases hop with rfl | rfl
    · rw [List.nil_append]
      apply dropOpt_eq_self_of_head
      intro x hx
      simp only [List.head?_cons, Option.some.injEq] at hx
      rw [← hx]
      intro h0
      rw [h0] at hd1
      exact absurd hd1 (by decide)
    · show dropOpt '(' ('(' :: _) = _
      simp [dropOpt]
  have h3 : dropOpt ')' (cp ++ (w2 ++ e1 :: e2 :: e3 :: '-' :: f1 :: f2 ::
      f3 :: f4 :: rest)) =
      w2 ++ e1 :: e2 :: e3 :: '-' :: f1 :: f2 :: f3 :: f4 :: rest := by
    rcases hcp with rfl | rfl
    · rw [List.nil_append]
      apply dropOpt_eq_self_of_head
      intro x hx
      obtain ⟨z, hz, hmem⟩ := head?_append_cons w2 e1
        (e2 :: e3 :: '-' :: f1 :: f2 :: f3 :: f4 :: rest)
      rw [hz] at hx
      injection hx with hzx
      subst hzx
      rcases hmem with hm | rfl
      · intro h0
        have hsp := hw2 _ hm
        rw [h0] at hsp
        exact absurd hsp (by decide)
      · intro h0
        rw [h0] at he1
        exact absurd he1 (by decide)
    · show dropOpt ')' (')' :: _) = _
      simp [dropOpt]
  have h4 : (w2 ++ e1 :: e2 :: e3 :: '-' :: f1 :: f2 :: f3 :: f4 ::
      rest).dropWhile isSpaceC =
      e1 :: e2 :: e3 :: '-' :: f1 :: f2 :: f3 :: f4 :: rest :=
    dropWhile_append_stop _ hw2 (isSpaceC_eq_false_of_digit he1)
  simp only [faxTry, h1, h2, h3, h4, hd1, hd2, hd3, hnd]
  simp

theorem faxTry_sound {tail a n : List Char} (h : faxTry tail = some (a, n)) :
    ∃ w1 op cp w2 rest,
      tail = w1 ++ (op ++ (a ++ (cp ++ (w2 ++ (n ++ rest))))) ∧
      (∀ c ∈ w1, isSpaceC c = true) ∧ (op = [] ∨ op = ['(']) ∧
      a.length = 3 ∧ (∀ c ∈ a, isDigitC c = true) ∧ (cp = [] ∨ cp = [')']) ∧
      (∀ c ∈ w2, isSpaceC c = true) ∧ NShape n := by
  unfold faxTry at h
  split at h
  case _ a1 a2 a3 r3 heq1 =>
    split at h
    case isTrue hd =>
      split at h
      case _ e1 e2 e3 f1 f2 f3 f4 tail2 heq2 =>
        split at h
        case isTrue hd2 =>
          simp only [Option.some.injEq, Prod.mk.injEq] at h
          obtain ⟨ha, hn⟩ := h
          rw [Bool.and_eq_true, Bool.and_eq_true] at hd
          -- decompose the optional '(' step
          have hD : ∃ op, (op = [] ∨ op = ['(']) ∧
              tail.dropWhile isSpaceC = op ++ (a1 :: a2 :: a3 :: r3) := by
            cases hDW : tail.dropWhile isSpaceC with
            | nil => rw [hDW] at heq1; cases heq1
            | cons x t =>
              rw [hDW] at heq1
              by_cases hx : x = '('
              · subst hx
                refine ⟨['('], Or.inr rfl, ?_⟩
                have ht : t = a1 :: a2 :: a3 :: r3 := by
                  rw [← heq1]
                  simp [dropOpt]
                rw [ht]
                rfl
              · have ht : x :: t = a1 :: a2 :: a3 :: r3 := by
                  rw [← heq1]
                  show _ = (if x = '(' then t else x :: t)
                  rw [if_neg hx]
                exact ⟨[], Or.inl rfl, by rw [ht]; rfl⟩
          obtain ⟨op, hop, hDeq⟩ := hD
          -- decompose the optional ')' step
          have hC : ∃ cp, (cp = [] ∨ cp = [')']) ∧
              r3 = cp ++ dropOpt ')' r3 := by
            cases r3 with
            | nil => exact ⟨[], Or.inl rfl, rfl⟩
            | cons y t2 =>
              by_cases hy : y = ')'
              · subst hy
                refine ⟨[')'], Or.inr rfl, ?_⟩
                show _ = ')' :: (if (')' : Char) = ')' then t2 else ')' :: t2)
                rw [if_pos rfl]
              · refine ⟨[], Or.inl rfl, ?_⟩
                show _ = [] ++ (if y = ')' then t2 else y :: t2)
                rw [if_neg hy]
                rfl
          obtain ⟨cp, hcp, hCeq⟩ := hC
          have hD2eq : dropOpt ')' r3 = (dropOpt ')' r3).takeWhile isSpaceC ++
              (e1 :: e2 :: e3 :: '-' :: f1 :: f2 :: f3 :: f4 :: tail2) := by
            rw [← heq2]
            exact (List.takeWhile_append_dropWhile isSpaceC _).symm
          refine ⟨tail.takeWhile isSpaceC, op, cp,
            (dropOpt ')' r3).takeWhile isSpaceC, tail2, ?_, ?_, hop, ?_, ?_,
            hcp, ?_, ?_⟩
          · rw [← ha, ← hn]
            conv_lhs => rw [← List.takeWhile_append_dropWhile (p := isSpaceC)
              (l := tail), hDeq]
            conv_lhs => rw [hCeq, hD2eq]
            simp [List.append_assoc]
          · intro c hc
            exact List.mem_takeWhile_imp hc
          · rw [← ha]
            rfl
          · intro c hc
            rw [← ha] at hc
            simp at hc
            rcases hc with rfl | rfl | rfl
            · exact hd.1.1
            · exact hd.1.2
            · exact hd.2
          · intro c hc
            exact List.mem_takeWhile_imp hc
          · exact ⟨e1, e2, e3, f1, f2, f3, f4, hn.symm, hd2⟩
        case isFalse => exact Option.noConfusion h
      case _ => exact Option.noConfusion h
    case isFalse => exact Option.noConfusion h
  case _ => exact Option.noConfusion h

theorem faxDecomp_cons {c : Char} {s a n : List Char}
    (h : FaxDecomp s a n) : FaxDecomp (c :: s) a n := by
  obtain ⟨pre, w1, op, cp, w2, rest, heq, hrest⟩ := h
  exact ⟨c :: pre, w1, op, cp, w2, rest, by rw [heq]; rfl, hrest⟩

theorem faxSearch_sound :
    ∀ {s a n : List Char}, faxSearch s = some (a, n) → FaxDecomp s a n := by
  intro s
  induction s with
  | nil => intro a n h; cases h
  | cons c rest ih =>
    intro a n h
    simp only [faxSearch] at h
    split at h
    case isTrue h4 =>
      split at h
      case _ r heq =>
        obtain ⟨ra, rn⟩ := r
        simp only [Option.some.injEq, Prod.mk.injEq] at h
        obtain ⟨rfl, rfl⟩ := h
        obtain ⟨w1, op, cp, w2, rest2, htail, hw1, hop, ha3, had, hcp, hw2,
          hnsh⟩ := faxTry_sound heq
        refine ⟨[], w1, op, cp, w2, rest2, ?_, hw1, hop, ha3, had, hcp, hw2,
          hnsh⟩
        rw [List.nil_append]
        conv_lhs => rw [← List.take_append_drop 4 (c :: rest), h4, htail]
        rfl
      case _ heq => exact faxDecomp_cons (ih h)
    case isFalse h4 => exact faxDecomp_cons (ih h)

theorem faxSearch_isSome_of :
    ∀ (pre tail : List Char), (faxTry tail).isSome = true →
      (faxSearch (pre ++ ('F' :: 'A' :: 'X' :: ':' :: tail))).isSome = true := by
  intro pre
  induction pre with
  | nil =>
    intro tail h
    rw [List.nil_append, faxSearch]
    have hcond : List.take 4 ('F' :: 'A' :: 'X' :: ':' :: tail) =
        ['F', 'A', 'X', ':'] := rfl
    rw [if_pos hcond]
    simp only [List.drop_succ_cons, List.drop_zero]
    cases hft : faxTry tail with
    | none => rw [hft] at h; cases h
    | some r => rfl
  | cons c pre' ih =>
    intro tail h
    rw [List.cons_append, faxSearch]
    by_cases hc4 : (c :: (pre' ++ ('F' :: 'A' :: 'X' :: ':' :: tail))).take 4 =
        ['F', 'A', 'X', ':']
    · rw [if_pos hc4]
      cases hft : faxTry ((c :: (pre' ++
          ('F' :: 'A' :: 'X' :: ':' :: tail))).drop 4) with
      | some r => rfl
      | none => exact ih tail h
    · rw [if_neg hc4]
      exact ih tail h

/-- C2: on the (trimmed) line at index 3, `phone` is the canonical
`(AAA) NNN-NNNN` exactly when the line starts with a parenthesized
three-digit area code, optional whitespace, then three digits, hyphen,
four digits, and empty otherwise; `fax` is the canonical form of a
`FAX:`-marked number found anywhere in the line, and empty when no such
occurrence exists.  The two formatting examples of the spec are included. -/
theorem c2_phone_fax :
    (∀ (lines : List (List Char)) (l3 : List Char), lines.get? 3 = some l3 →
      (∀ a n, PhoneDecomp (pystrip l3) a n →
        (parse_entry_lines lines).phone = canonPhone a n) ∧
      ((¬ ∃ a n, PhoneDecomp (pystrip l3) a n) →
        (parse_entry_lines lines).phone = []) ∧
      (FaxOccurs (pystrip l3) →
        ∃ a n, FaxDecomp (pystrip l3) a n ∧
          (parse_entry_lines lines).fax = canonPhone a n) ∧
      (¬ FaxOccurs (pystrip l3) → (parse_entry_lines lines).fax = [])) ∧
    (parse_entry_lines [[], [], [],
      "(308) 962-8495 FAX:(308) 962-7916".toList]).phone =
      "(308) 962-8495".toList ∧
    (parse_entry_lines [[], [], [],
      "(308) 962-8495 FAX:(308) 962-7916".toList]).fax =
      "(308) 962-7916".toList ∧
    (parse_entry_lines [[], [], [], "(402) 988-2188 FAX:".toList]).phone =
      "(402) 988-2188".toList ∧
    (parse_entry_lines [[], [], [], "(402) 988-2188 FAX:".toList]).fax =
      [] := by
  refine ⟨?_, by decide, by decide, by decide, by decide⟩
  intro lines l3 hget
  cases lines with
  | nil => cases hget
  | cons l0 rest =>
    rw [List.get?_cons_succ, List.get?_eq_getElem?] at hget
    refine ⟨?_, ?_, ?_, ?_⟩
    · intro a n hdec
      have hscan := phoneScan_complete hdec
      simp [parse_entry_lines, hget, hscan]
    · intro hnex
      cases hscan : phoneScan (pystrip l3) with
      | some p =>
        obtain ⟨a, n⟩ := p
        exact absurd ⟨a, n, phoneScan_sound hscan⟩ hnex
      | none => simp [parse_entry_lines, hget, hscan]
    · intro hocc
      obtain ⟨a, n, pre, w1, op, cp, w2, rest2, hsplit, hw1, hop, ha3, had,
        hcp, hw2, hnsh⟩ := hocc
      have htry : (faxTry (w1 ++ (op ++ (a ++ (cp ++ (w2 ++
          (n ++ rest2))))))).isSome = true := by
        rw [faxTry_complete rfl hw1 hop ha3 had hcp hw2 hnsh]
        rfl
      have hsome : (faxSearch (pystrip l3)).isSome = true := by
        rw [hsplit]
        exact faxSearch_isSome_of pre _ htry
      cases hscan : faxSearch (pystrip l3) with
      | none => rw [hscan] at hsome; cases hsome
      | some p =>
        obtain ⟨a', n'⟩ := p
        exact ⟨a', n', faxSearch_sound hscan,
          by simp [parse_entry_lines, hget, hscan]⟩
    · intro hnocc
      cases hscan : faxSearch (pystrip l3) with
      | some p =>
        obtain ⟨a', n'⟩ := p
        exact absurd ⟨a', n', faxSearch_sound hscan⟩ hnocc
      | none => simp [parse_entry_lines, hget, hscan]

/-- Witness for C2, discharging the phone hypotheses by an explicit start
decomposition and the fax hypotheses by an explicit occurrence. -/
theorem c2_phone_fax_witness :
    (parse_entry_lines [[], [], [], "(308) 962-8495".toList]).phone =
      "(308) 962-8495".toList ∧
    ∃ a n, FaxDecomp (pystrip ("FAX:(308) 962-7916".toList)) a n ∧
      (parse_entry_lines [[], [], [], "FAX:(308) 962-7916".toList]).fax =
        canonPhone a n := by
  constructor
  · have h := ((c2_phone_fax.1 [[], [], [], "(308) 962-8495".toList]
      ("(308) 962-8495".toList) rfl).1) ("308".toList) ("962-8495".toList)
      ⟨[' '], [], by decide, by decide, by decide, by decide,
        '9', '6', '2', '8', '4', '9', '5', by decide, by decide⟩
    rw [h]
    rfl
  · exact ((c2_phone_fax.1 [[], [], [], "FAX:(308) 962-7916".toList]
      ("FAX:(308) 962-7916".toList) rfl).2.2.1)
      ⟨"308".toList, "962-7916".toList, [], [], ['('], [')'], [' '], [],
        by decide, by decide, by decide, by decide, by decide, by decide,
        by decide, '9', '6', '2', '7', '9', '1', '6', by decide, by decide⟩

/-! ## Claims C9 and C6: header-field population and the round trip -/

/-- The four header fields of a record whose first line's header scan
succeeded. -/
theorem parse_header_fields {l0 : List Char} (rest : List (List Char))
    {t c z f : List Char} (hh : headerScan (pystrip l0) = some (t, c, z, f)) :
    (parse_entry_lines (l0 :: rest)).town = pystrip t ∧
    (parse_entry_lines (l0 :: rest)).county = pystrip c ∧
    (parse_entry_lines (l0 :: rest)).zip_code = z ∧
    (parse_entry_lines (l0 :: rest)).facility_type = f := by
  refine ⟨?_, ?_, ?_, ?_⟩ <;> simp [parse_entry_lines, hh]

/-- The stripped town group of a successful header scan is non-empty: the
group starts at the head of the stripped line, which is not whitespace. -/
theorem town_strip_ne_nil {l0 t c z f : List Char}
    (hh : headerScan (pystrip l0) = some (t, c, z, f)) : pystrip t ≠ [] := by
  obtain ⟨wc, w2, w3, w4, d1, d2, d3, d4, d5, u, heq, htne, _⟩ :=
    headerScan_sound hh
  obtain ⟨th, tt, rfl⟩ := List.exists_cons_of_ne_nil htne
  rw [List.cons_append] at heq
  have hhd : isSpaceC th = false := pystrip_head_not_space heq
  exact pystrip_ne_nil hhd

/-- A record built from a line accepted by `is_entry_header` has non-empty
town, a five-digit zip, and an `RHC-` type. -/
theorem header_populates {l0 : List Char} {rest : List (List Char)}
    (h : is_entry_header l0 = true) :
    (parse_entry_lines (l0 :: rest)).town ≠ [] ∧
    (parse_entry_lines (l0 :: rest)).zip_code.length = 5 ∧
    (∀ c ∈ (parse_entry_lines (l0 :: rest)).zip_code, isDigitC c = true) ∧
    ∃ u, isUpperAZ u = true ∧
      (parse_entry_lines (l0 :: rest)).facility_type =
        ['R', 'H', 'C', '-', u] := by
  unfold is_entry_header at h
  cases hh : headerScan (pystrip l0) with
  | none => rw [hh] at h; cases h
  | some q =>
    obtain ⟨t, c, z, f⟩ := q
    obtain ⟨ht, hc, hz, hf⟩ := parse_header_fields rest hh
    obtain ⟨wc, w2, w3, w4, d1, d2, d3, d4, d5, u, heq, htne, htc, hwc, hcne2,
      hcc, hw2ne, hw2s, hw3ne, hw3s, hzz, hdig, hw4ne, hw4s, hff, hu⟩ :=
      headerScan_sound hh
    refine ⟨?_, ?_, ?_, u, hu, ?_⟩
    · rw [ht]
      exact town_strip_ne_nil hh
    · rw [hz, hzz]
      rfl
    · rw [hz, hzz]
      intro ch hch
      simp only [Bool.and_eq_true] at hdig
      simp at hch
      rcases hch with rfl | rfl | rfl | rfl | rfl
      · exact hdig.1.1.1.1
      · exact hdig.1.1.1.2
      · exact hdig.1.1.2
      · exact hdig.1.2
      · exact hdig.2
    · rw [hf, hff]

theorem segLoop_header_inv :
    ∀ (d cur : List (List Char)),
      (cur = [] ∨ ∃ h0 t0, cur = h0 :: t0 ∧ is_entry_header h0 = true) →
      ∀ e ∈ segLoop d cur,
        e.town ≠ [] ∧ e.zip_code.length = 5 ∧
        (∀ c ∈ e.zip_code, isDigitC c = true) ∧
        ∃ u, isUpperAZ u = true ∧ e.facility_type = ['R', 'H', 'C', '-', u] := by
  intro d
  induction d with
  | nil =>
    intro cur hinv e he
    rcases hinv with rfl | ⟨h0, t0, rfl, hh⟩
    · simp [segLoop, flushGroup] at he
    · by_cases hf : (parse_entry_lines (h0 :: t0)).facility_name.isEmpty
      · simp [segLoop, flushGroup, hf] at he
      · simp [segLoop, flushGroup, hf] at he
        subst he
        exact header_populates hh
  | cons l rest ih =>
    intro cur hinv e he
    simp only [segLoop] at he
    by_cases ht : isTotalLine l
    · rw [if_pos ht] at he
      exact ih cur hinv e he
    · rw [if_neg ht] at he
      by_cases hh : is_entry_header l
      · rw [if_pos hh] at he
        rw [List.mem_append] at he
        rcases he with he | he
        · rcases hinv with rfl | ⟨h0, t0, rfl, hh0⟩
          · simp [flushGroup] at he
          · by_cases hf : (parse_entry_lines (h0 :: t0)).facility_name.isEmpty
            · simp [flushGroup, hf] at he
            · simp [flushGroup, hf] at he
              subst he
              exact header_populates hh0
        · exact ih [l] (Or.inr ⟨l, [], rfl, hh⟩) e he
      · rw [if_neg hh] at he
        by_cases hc : cur.isEmpty
        · rw [if_pos hc] at he
          exact ih cur hinv e he
        · rw [if_neg hc] at he
          refine ih (cur ++ [l]) ?_ e he
          rcases hinv with rfl | ⟨h0, t0, rfl, hh0⟩
          · exact absurd rfl hc
          · exact Or.inr ⟨h0, t0 ++ [l], by rw [List.cons_append], hh0⟩

/-- C9: the classifier and the extractor run the same header pattern, so a
record built from a group whose first line passes `is_entry_header` — true
of every group the segmenter closes — has populated header fields: for
every line group starting with an accepted header and for every record in
`segment_page`'s output, the town is non-empty, the zip code is exactly
five digits, and the facility type is `RHC-` plus one uppercase letter. -/
theorem c9_header_invariant :
    (∀ (l0 : List Char) (rest : List (List Char)), is_entry_header l0 = true →
      (parse_entry_lines (l0 :: rest)).town ≠ [] ∧
      (parse_entry_lines (l0 :: rest)).zip_code.length = 5 ∧
      (∀ c ∈ (parse_entry_lines (l0 :: rest)).zip_code, isDigitC c = true) ∧
      ∃ u, isUpperAZ u = true ∧
        (parse_entry_lines (l0 :: rest)).facility_type =
          ['R', 'H', 'C', '-', u]) ∧
    ∀ (lines : List (List Char)), ∀ e ∈ segment_page lines,
      e.town ≠ [] ∧ e.zip_code.length = 5 ∧
      (∀ c ∈ e.zip_code, isDigitC c = true) ∧
      ∃ u, isUpperAZ u = true ∧ e.facility_type = ['R', 'H', 'C', '-', u] :=
  ⟨fun _ _ h => header_populates h,
   fun lines e he => segLoop_header_inv (lines.drop 7) [] (Or.inl rfl) e he⟩

/-- Witness for C9 at a concrete header line and a concrete page. -/
theorem c9_header_invariant_witness :
    (parse_entry_lines ["ADAMS (GAGE) - 68301 RHC-C".toList]).town ≠ [] ∧
    (parse_entry_lines
      ["ADAMS (GAGE) - 68301 RHC-C".toList]).zip_code.length = 5 ∧
    (parse_entry_lines
      ["ADAMS (GAGE) - 68301 RHC-C".toList,
       "ADAMS PRIMARY CARE 283499".toList]).town ≠ [] := by
  have h1 := c9_header_invariant.1 ("ADAMS (GAGE) - 68301 RHC-C".toList) []
    (by decide)
  have h2 := c9_header_invariant.2
    [[], [], [], [], [], [], [],
     "ADAMS (GAGE) - 68301 RHC-C".toList,
     "ADAMS PRIMARY CARE 283499".toList]
    (parse_entry_lines
      ["ADAMS (GAGE) - 68301 RHC-C".toList,
       "ADAMS PRIMARY CARE 283499".toList])
    (by decide)
  exact ⟨h1.1, h1.2.1, h2.1⟩

/-- C6 (counterexample): the line `ADAMS (  ) - 68301 RHC-C` passes the
header pattern (its county group is two spaces), but `county` strips to
the empty string, so the reconstructed header `ADAMS () - 68301 RHC-C`
has an empty county group and fails `is_entry_header`. -/
theorem c6_counterexample :
    is_entry_header ("ADAMS (  ) - 68301 RHC-C".toList) = true ∧
    (parse_entry_lines ["ADAMS (  ) - 68301 RHC-C".toList]).county = [] ∧
    is_entry_header (reconstructHeader
      (parse_entry_lines ["ADAMS (  ) - 68301 RHC-C".toList])) = false := by
  refine ⟨by decide, by decide, by decide⟩

/-- C6 (amended): for every record built from a header line the pattern
accepted, if the record's `county` is non-empty (the county group
contained a non-whitespace character), the reconstructed string
`"{town} ({county}) - {zip_code} {facility_type}"` again satisfies
`is_entry_header`. -/
theorem c6_roundtrip (l0 : List Char) (rest : List (List Char))
    (h : is_entry_header l0 = true)
    (hcounty : (parse_entry_lines (l0 :: rest)).county ≠ []) :
    is_entry_header (reconstructHeader (parse_entry_lines (l0 :: rest))) =
      true := by
  unfold is_entry_header at h
  cases hh : headerScan (pystrip l0) with
  | none => rw [hh] at h; cases h
  | some q =>
    obtain ⟨t, c, z, f⟩ := q
    obtain ⟨ht, hc, hz, hf⟩ := parse_header_fields rest hh
    obtain ⟨wc, w2, w3, w4, d1, d2, d3, d4, d5, u, heq, htne, htc, hwc, hcne2,
      hcc, hw2ne, hw2s, hw3ne, hw3s, hzz, hdig, hw4ne, hw4s, hff, hu⟩ :=
      headerScan_sound hh
    have htne' : pystrip t ≠ [] := town_strip_ne_nil hh
    obtain ⟨sh, st, hsteq⟩ := List.exists_cons_of_ne_nil htne'
    have hshd : isSpaceC sh = false := pystrip_head_not_space hsteq
    have hrhead : (reconstructHeader (parse_entry_lines (l0 :: rest))).head? =
        some sh := by
      rw [reconstructHeader, ht, hsteq]
      rfl
    have hrlast : (reconstructHeader (parse_entry_lines (l0 :: rest))).getLast? =
        some u := by
      rw [show reconstructHeader (parse_entry_lines (l0 :: rest)) =
          ((parse_entry_lines (l0 :: rest)).town ++ (' ' :: '(' ::
            ((parse_entry_lines (l0 :: rest)).county ++ (')' :: ' ' :: '-' ::
              ' ' :: ((parse_entry_lines (l0 :: rest)).zip_code ++
                (' ' :: 'R' :: 'H' :: 'C' :: ['-'])))))) ++ [u] from by
        rw [reconstructHeader, hf, hff]
        simp [List.append_assoc]]
      exact List.getLast?_concat _
    unfold is_entry_header
    rw [pystrip_eq_self
      (fun ch hch => by
        rw [hrhead] at hch
        injection hch with h1
        subst h1
        exact hshd)
      (fun ch hch => by
        rw [hrlast] at hch
        injection hch with h1
        subst h1
        exact isSpaceC_eq_false_of_upper hu)]
    rw [headerScan_isSome_iff]
    refine ⟨pystrip t, [' '], pystrip c, [' '], [' '], [' '],
      d1, d2, d3, d4, d5, u, ?_, htne', ?_, List.cons_ne_nil _ _, ?_,
      ?_, ?_, List.cons_ne_nil _ _, ?_, List.cons_ne_nil _ _, ?_, hdig,
      List.cons_ne_nil _ _, ?_, hu⟩
    · rw [reconstructHeader, ht, hc, hz, hzz, hf, hff]
      rfl
    · intro a ha
      exact htc a (mem_of_mem_pystrip ha)
    · intro a ha
      rcases List.mem_singleton.mp ha with rfl
      decide
    · rw [hc] at hcounty
      exact hcounty
    · intro a ha
      exact hcc a (mem_of_mem_pystrip ha)
    · intro a ha
      rcases List.mem_singleton.mp ha with rfl
      decide
    · intro a ha
      rcases List.mem_singleton.mp ha with rfl
      decide
    · intro a ha
      rcases List.mem_singleton.mp ha with rfl
      decide

/-- Witness for C6 at a concrete record. -/
theorem c6_roundtrip_witness :
    is_entry_header (reconstructHeader
      (parse_entry_lines ["ADAMS (GAGE) - 68301 RHC-C".toList])) = true :=
  c6_roundtrip ("ADAMS (GAGE) - 68301 RHC-C".toList) [] (by decide) (by decide)

end RHC

namespace RHC

/-! ## Concrete evaluations mirroring the repository's pytest suite -/

example : is_entry_header ("ADAMS (GAGE) - 68301 RHC-C".toList) = true := by decide

example : is_entry_header ("GRAND ISLAND (HALL) - 68801 RHC-C".toList) = true := by decide

example :
    is_entry_header ("O".toList ++ [apos] ++ " NEILL (HOLT) - 68763 RHC-C".toList) = true := by
  decide

example : is_entry_header ("ADAMS PRIMARY CARE 283499".toList) = false := by decide

example : is_entry_header ("(402) 988-2188 FAX:".toList) = false := by decide

example : is_entry_header ("TOWN (County) Zip Code".toList) = false := by decide

example : is_entry_header [] = false := by decide

example :
    parse_entry_lines
      ["ADAMS (GAGE) - 68301 RHC-C".toList,
       "ADAMS PRIMARY CARE 283499".toList,
       "PO BOX 963, 620 MAIN STREET, SUITE A".toList,
       "(402) 988-2188 FAX:".toList,
       "JOHNSON COUNTY HOSPITAL".toList,
       "MARY KENT, ADMINISTRATOR".toList] =
    { town := "ADAMS".toList, county := "GAGE".toList,
      zip_code := "68301".toList, facility_type := "RHC-C".toList,
      facility_name := "ADAMS PRIMARY CARE".toList,
      provider_id := "283499".toList,
      address := "PO BOX 963, 620 MAIN STREET, SUITE A".toList,
      phone := "(402) 988-2188".toList, fax := [],
      licensee := "JOHNSON COUNTY HOSPITAL".toList,
      administrator := "MARY KENT, ADMINISTRATOR".toList,
      care_of := [] } := by decide

example :
    (parse_entry_lines [[], [], [], "(308) 962-8495 FAX:(308) 962-7916".toList]).phone =
      "(308) 962-8495".toList := by decide

example :
    (parse_entry_lines [[], [], [], "(308) 962-8495 FAX:(308) 962-7916".toList]).fax =
      "(308) 962-7916".toList := by decide

example :
    (parse_entry_lines [[], [], [], [], [], [],
      "c/o: SHANNON M SORENSON".toList]).care_of = "SHANNON M SORENSON".toList := by decide

example :
    segment_page
      (["t".toList, "c1".toList, "c2".toList, "c3".toList, "c4".toList, "c5".toList, "c6".toList] ++
       ["ADAMS (GAGE) - 68301 RHC-C".toList,
        "ADAMS PRIMARY CARE 283499".toList,
        "PO BOX 963".toList,
        "(402) 988-2188 FAX:".toList,
        "JOHNSON COUNTY HOSPITAL".toList,
        "MARY KENT, ADMINISTRATOR".toList,
        "Total Facilities: 1".toList]) =
    [{ town := "ADAMS".toList, county := "GAGE".toList,
       zip_code := "68301".toList, facility_type := "RHC-C".toList,
       facility_name := "ADAMS PRIMARY CARE".toList,
       provider_id := "283499".toList,
       address := "PO BOX 963".toList,
       phone := "(402) 988-2188".toList, fax := [],
       licensee := "JOHNSON COUNTY HOSPITAL".toList,
       administrator := "MARY KENT, ADMINISTRATOR".toList,
       care_of := [] }] := by decide

end RHC
